import Mathlib

/-!
Verification of the MultiQC `BaseMultiqcModule` helper functions
(`multiqc/modules/base_module.py`) against their natural-language
specification.

The Python code is shallowly embedded:
* Python dicts become association lists (`List (key × value)`); dict
  assignment replaces the first binding with the same key or appends.
* Python exceptions become an explicit `PyErr` value threaded through
  `Except` / result pairs; a `try/except SomeError` block becomes a
  `match` that turns exactly that error back into a normal result.
* Python floats become rationals extended with the two infinities used
  by the code (`float("inf")` / `float("-inf")`); `float(x)` becomes a
  coercion that fails (with `ValueError`) on values that are not numeric.
* The filesystem walk, `mimetypes.guess_type` and `os.path.getsize` are
  externals: each candidate file carries its size, guessed MIME type /
  encoding and readability flags as fields, and `fnmatch.fnmatch` is an
  explicit function parameter.
-/

namespace Multiqc

/-- The Python exceptions that the embedded code can raise or catch. -/
inductive PyErr where
  | keyError (k : String)
  | valueError
  | typeError
  | attributeError
deriving DecidableEq, Repr

/-- A Python value stored in a per-sample data dict: either a value on
which `float()` succeeds (modelled by the rational it denotes), or any
other value, on which `float()` raises `ValueError`. -/
inductive PyVal where
  | num (x : ℚ)
  | bad
deriving DecidableEq, Repr

/-- `float(v)` on a stored value. -/
def pyFloat : PyVal → Except PyErr ℚ
  | .num x => .ok x
  | .bad => .error .valueError

/-- A Python float as used by the bound computation: a rational or one of
the infinities `float("inf")` / `float("-inf")`. -/
inductive PyFloat where
  | ninf
  | finite (x : ℚ)
  | inf
deriving DecidableEq, Repr

/-- Python `max` on the floats handled by the bound computation. -/
def pfMax : PyFloat → PyFloat → PyFloat
  | .ninf, b => b
  | .inf, _ => .inf
  | .finite a, .ninf => .finite a
  | .finite _, .inf => .inf
  | .finite a, .finite b => .finite (max a b)

/-- Python `min` on the floats handled by the bound computation. -/
def pfMin : PyFloat → PyFloat → PyFloat
  | .inf, b => b
  | .ninf, _ => .ninf
  | .finite a, .inf => .finite a
  | .finite _, .ninf => .ninf
  | .finite a, .finite b => .finite (min a b)

/-- Association-list reading of Python `d[k]` (first binding wins). -/
def lookupA {α β : Type} [DecidableEq α] : List (α × β) → α → Option β
  | [], _ => none
  | (a, b) :: rest, k => if a = k then some b else lookupA rest k

/-- Association-list reading of Python `d[k] = v`: replace the first
binding with key `k`, or append a new one. -/
def setA {α β : Type} [DecidableEq α] : List (α × β) → α → β → List (α × β)
  | [], k, v => [(k, v)]
  | (a, b) :: rest, k, v => if a = k then (k, v) :: rest else (a, b) :: setA rest k v

/-- `leadsWith pat s` is true when `pat` is an initial segment of `s`
(Python `s.startswith(pat)` on character lists). -/
def leadsWith : List Char → List Char → Bool
  | [], _ => true
  | _ :: _, [] => false
  | p :: ps, c :: cs => p == c && leadsWith ps cs

/-- `pyInL pat s` is Python's substring test `pat in s` on character
lists (true for the empty pattern). -/
def pyInL (pat : List Char) : List Char → Bool
  | [] => leadsWith pat []
  | c :: cs => leadsWith pat (c :: cs) || pyInL pat cs

/-- Python substring test `m in s` on strings. -/
def pyIn (m s : String) : Bool := pyInL m.data s.data

/-- Python `s.split(sep, 1)[0]` for a non-empty separator: the part of
`s` strictly before the first occurrence of `sep` (all of `s` when `sep`
does not occur). -/
def pySplitFirst (sep : List Char) : List Char → List Char
  | [] => []
  | c :: cs => if leadsWith sep (c :: cs) then [] else c :: pySplitFirst sep cs

/-- Python `root.replace(os.sep, ' | ')` with `os.sep` modelled as `/`. -/
def pyReplaceSep : List Char → List Char
  | [] => []
  | c :: cs => if c = '/' then ' ' :: '|' :: ' ' :: pyReplaceSep cs else c :: pyReplaceSep cs

/-- Python `s.lstrip('. | ')`: drop leading characters belonging to the
set `{'.', ' ', '|'}`. -/
def pyLstripDotBar (s : List Char) : List Char :=
  s.dropWhile (fun c => c = '.' || c = ' ' || c = '|')

/-- The configuration values `find_log_files` / `clean_s_name` read from
the process-wide `config` object. -/
structure SearchConfig where
  fn_ignore_files : List String
  log_filesize_limit : Nat
  fn_clean_exts : List String
  prepend_dirs : Bool
deriving DecidableEq, Repr

/-- The suffix-truncation pass of `clean_s_name`: each cleaning token is
applied, in configured order, by truncating at its first occurrence. -/
def cleanCore (exts : List (List Char)) (s : List Char) : List Char :=
  exts.foldl (fun n e => pySplitFirst e n) s

/-- `BaseMultiqcModule.clean_s_name`: truncate the name at each cleaning
token in configured order, then optionally prepend the directory (path
separators replaced by `|` joiners) and strip leading `.`, space and `|`
characters. -/
def clean_s_name (cfg : SearchConfig) (s_name : String) (root : Option String) : String :=
  let r := (root.getD "").data
  let n := cleanCore (cfg.fn_clean_exts.map String.data) s_name.data
  if cfg.prepend_dirs then
    ⟨pyLstripDotBar (pyReplaceSep r ++ (' ' :: '|' :: ' ' :: []) ++ n)⟩
  else ⟨n⟩

/-- A candidate file produced by walking the analysis directories.
The walk itself, `mimetypes.guess_type` and `os.path.getsize` are
external, so their answers for this file are carried as fields:
`mimeType` / `mimeEncoding` are the two components returned by
`mimetypes.guess_type`, `readableSize` is whether `os.path.getsize`
succeeds, and `readableOpen` is whether opening and reading the file as
UTF-8 succeeds.  `lines` are the file's lines; the full slurped text is
their concatenation. -/
structure PyFile where
  root : String
  fn : String
  size : Nat
  mimeType : Option String
  mimeEncoding : Option String
  lines : List String
  readableSize : Bool
  readableOpen : Bool
deriving DecidableEq, Repr

/-- The text returned by `f.read()` on an open file. -/
def fullText (f : PyFile) : String :=
  f.lines.foldl (fun a b => a ++ b) ""

/-- What a yielded match carries besides the names: an open handle, the
slurped contents, or nothing (metadata-only mode). -/
inductive MatchPayload where
  | handle
  | contents (text : String)
  | metaOnly
deriving DecidableEq, Repr

/-- One yield of `find_log_files` (other than the bare `yield None` that
answers a patternless call). -/
structure LogMatch where
  s_name : String
  root : String
  fn : String
  payload : MatchPayload
deriving DecidableEq, Repr

/-- `ftype is not None and ftype.startswith('text') is False` — the
MIME-type based rejection of non-text files. -/
def mimeNonText (f : PyFile) : Bool :=
  match f.mimeType with
  | some t => !(leadsWith "text".data t.data)
  | none => false

/-- `m in fn` for any of the filename tokens (false when no filename
patterns were supplied). -/
def fnMatched (fn_match : Option (List String)) (fn : String) : Bool :=
  match fn_match with
  | none => false
  | some ms => ms.any (fun m => pyIn m fn)

/-- The value of the `readfile` flag after the filename match and the
content-search eligibility checks (MIME sniff and size limit), which run
only when content tokens exist and the filename did not match. -/
def readFileFlag (cfg : SearchConfig) (cm : Option (List String)) (fm : Bool) (f : PyFile) : Bool :=
  if cm.isSome && !fm then
    if f.mimeEncoding.isSome then false
    else if mimeNonText f then false
    else if !f.readableSize then false
    else if f.size > cfg.log_filesize_limit then false
    else true
  else fm

/-- The body of the per-file loop of `find_log_files`: returns the
yields this file contributes and the list of files it attempts to open.
`fnm` is the external `fnmatch.fnmatch` (filename, pattern). -/
def processFile (cfg : SearchConfig) (fnm : String → String → Bool)
    (fn_match cm : Option (List String)) (filecontents filehandles : Bool)
    (f : PyFile) : List (Option LogMatch) × List (String × String) :=
  if (cfg.fn_ignore_files.filter (fun p => fnm f.fn p)).length > 0 then ([], [])
  else
    let s_name := clean_s_name cfg f.fn (some f.root)
    let fm := fnMatched fn_match f.fn
    if readFileFlag cfg cm fm f then
      if f.readableOpen then
        let ret := if cm.isSome && !fm then
            f.lines.any (fun line => (cm.getD []).any (fun m => pyIn m line))
          else true
        if ret then
          let payload := if filehandles then MatchPayload.handle
            else if filecontents then MatchPayload.contents (fullText f)
            else MatchPayload.metaOnly
          ([some ⟨s_name, f.root, f.fn, payload⟩], [(f.root, f.fn)])
        else ([], [(f.root, f.fn)])
      else ([], [(f.root, f.fn)])
    else ([], [])

/-- The per-file loop of `find_log_files` over the walked file list. -/
def flfLoop (cfg : SearchConfig) (fnm : String → String → Bool)
    (fn_match cm : Option (List String)) (filecontents filehandles : Bool) :
    List PyFile → List (Option LogMatch) × List (String × String)
  | [] => ([], [])
  | f :: fs =>
    let p := processFile cfg fnm fn_match cm filecontents filehandles f
    let rest := flfLoop cfg fnm fn_match cm filecontents filehandles fs
    (p.1 ++ rest.1, p.2 ++ rest.2)

/-- `BaseMultiqcModule.find_log_files`, with the directory walk already
flattened into the candidate file list `files`.  The first component is
the sequence of yields (a leading `none` models the bare `yield None`
answering a call with no search patterns at all); the second component
records every file the engine attempts to open. -/
def find_log_files (cfg : SearchConfig) (fnm : String → String → Bool)
    (files : List PyFile) (fn_match cm : Option (List String))
    (filecontents filehandles : Bool) : List (Option LogMatch) × List (String × String) :=
  let tail := flfLoop cfg fnm fn_match cm filecontents filehandles files
  (if fn_match.isNone && cm.isNone then Option.none :: tail.1 else tail.1, tail.2)

/-- The caller-supplied per-key header configuration dict, before the
defaults are filled in.  `modify` is the optional value-transform
callback; its result goes through `float()` again, which can fail. -/
structure HeaderCfg where
  title : Option String := none
  description : Option String := none
  scale : Option String := none
  format : Option String := none
  max : Option PyVal := none
  min : Option PyVal := none
  modify : Option (ℚ → PyVal) := none

/-- A header dict after `general_stats_addcols` has filled in the id,
the display defaults and the derived bounds. -/
structure FilledHeader where
  rid : String
  title : String
  description : String
  scale : String
  format : String
  cfgMax : Option PyVal
  cfgMin : Option PyVal
  modify : Option (ℚ → PyVal)
  dmax : PyFloat
  dmin : PyFloat

/-- A module's per-sample data dict: sample name to metric-key dict. -/
abbrev GSData : Type := List (String × List (String × PyVal))

/-- One namespace's entry in `report.general_stats`. -/
structure GSEntry where
  data : GSData
  headers : List (String × FilledHeader)

/-- `report.general_stats`: namespace (the module name, possibly the
Python `None`) to entry. -/
abbrev GSTable : Type := List (Option String × GSEntry)

/-- `''.join(c for c in self.name if c.isalnum()).lower()`. -/
def safeName (n : String) : String :=
  ⟨(n.data.filter Char.isAlphanum).map Char.toLower⟩

/-- `float(headers[k]['modify'](val))` when a modify callback is
configured, the identity otherwise. -/
def applyModify (m : Option (ℚ → PyVal)) (v : ℚ) : Except PyErr ℚ :=
  match m with
  | none => .ok v
  | some g => pyFloat (g v)

/-- The min/max scanning loop of `general_stats_addcols`: walk every
sample, skip samples missing the key (`except KeyError: pass`), convert
the value with `float()` (whose `ValueError` is not caught), apply the
optional modify callback, and update whichever bounds were not fixed by
the configuration. -/
def scanBounds (k : String) (modify : Option (ℚ → PyVal)) (setdmax setdmin : Bool) :
    List (String × List (String × PyVal)) → PyFloat → PyFloat → Except PyErr (PyFloat × PyFloat)
  | [], dmax, dmin => .ok (dmax, dmin)
  | (_, samp) :: rest, dmax, dmin =>
    match lookupA samp k with
    | none => scanBounds k modify setdmax setdmin rest dmax dmin
    | some v =>
      match pyFloat v with
      | .error e => .error e
      | .ok x =>
        match applyModify modify x with
        | .error e => .error e
        | .ok x' =>
          scanBounds k modify setdmax setdmin rest
            (if setdmax then pfMax dmax (.finite x') else dmax)
            (if setdmin then pfMin dmin (.finite x') else dmin)

/-- The per-key body of `general_stats_addcols`: build the unique id,
fill the display defaults, resolve the configured `max`/`min` (their
`float()` conversion can raise; a missing key starts the bound at the
matching infinity and requests a scan), and run the data scan when at
least one bound was not fixed. -/
def fillHeader (selfName : Option String) (rand k : String) (cfg : HeaderCfg)
    (data : GSData) : Except PyErr FilledHeader :=
  let rid := match selfName with
    | none => rand ++ "_" ++ k
    | some n => safeName n ++ "_" ++ k
  let title := cfg.title.getD k
  let description := cfg.description.getD
    ((match selfName with | some n => n | none => "None") ++ ": " ++ title)
  let scale := cfg.scale.getD "GnBu"
  let fmt := cfg.format.getD "\x7b:.1f\x7d"
  match (match cfg.max with
         | some v => (pyFloat v).map (fun x => (PyFloat.finite x, false))
         | none => .ok (PyFloat.ninf, true)) with
  | .error e => .error e
  | .ok (dmax0, setdmax) =>
    match (match cfg.min with
           | some v => (pyFloat v).map (fun x => (PyFloat.finite x, false))
           | none => .ok (PyFloat.inf, true)) with
    | .error e => .error e
    | .ok (dmin0, setdmin) =>
      match (if setdmax || setdmin then scanBounds k cfg.modify setdmax setdmin data dmax0 dmin0
             else .ok (dmax0, dmin0)) with
      | .error e => .error e
      | .ok (dmax, dmin) =>
        .ok ⟨rid, title, description, scale, fmt, cfg.max, cfg.min, cfg.modify, dmax, dmin⟩

/-- The `for k in keys` loop of `general_stats_addcols`.  Each completed
iteration re-assigns `report.general_stats[namespace]` with the data and
the headers filled so far; `headers[k]` on a missing key raises
`KeyError` (this is what happens on the data-keys path with an empty
headers dict), and an uncaught error stops the loop, leaving the table
as the previous iterations left it. -/
def gsLoop (selfName : Option String) (rand : String)
    (headers : List (String × HeaderCfg)) (data : GSData) (ns : Option String) :
    List String → List (String × FilledHeader) → GSTable → Option PyErr × GSTable
  | [], _, t => (none, t)
  | k :: ks, acc, t =>
    match lookupA headers k with
    | none => (some (.keyError k), t)
    | some cfg =>
      match fillHeader selfName rand k cfg data with
      | .error e => (some e, t)
      | .ok fh =>
        gsLoop selfName rand headers data ns ks (acc ++ [(k, fh)])
          (setA t ns ⟨data, acc ++ [(k, fh)]⟩)

/-- The namespace under which the entry is stored: the explicit argument
when given, `self.name` otherwise. -/
def gsNs (nsArg selfName : Option String) : Option String :=
  match nsArg with
  | some s => some s
  | none => selfName

/-- `BaseMultiqcModule.general_stats_addcols`: the keys iterated are the
headers' keys when the headers dict is non-empty, otherwise the data
dict's (sample-name) keys.  `rand` stands for the random four-letter
prefix drawn when `self.name` is `None`.  Returns the uncaught exception
(if any) and the final state of `report.general_stats`. -/
def general_stats_addcols (selfName : Option String) (rand : String) (t : GSTable)
    (data : GSData) (headers : List (String × HeaderCfg)) (nsArg : Option String) :
    Option PyErr × GSTable :=
  let ns := gsNs nsArg selfName
  let keys := if headers.length > 0 then headers.map Prod.fst else data.map Prod.fst
  gsLoop selfName rand headers data ns keys [] t

/-- The derived max stored for key `k` under namespace `ns`, if any. -/
def dmaxAt (t : GSTable) (ns : Option String) (k : String) : Option PyFloat :=
  (lookupA t ns).bind fun e => (lookupA e.headers k).map FilledHeader.dmax

/-- The derived min stored for key `k` under namespace `ns`, if any. -/
def dminAt (t : GSTable) (ns : Option String) (k : String) : Option PyFloat :=
  (lookupA t ns).bind fun e => (lookupA e.headers k).map FilledHeader.dmin

/-- One step of the reference maximum: fold a sample in, skipping it
when the key is missing or its value is non-numeric. -/
def maxStep (k : String) (modify : Option (ℚ → PyVal))
    (acc : PyFloat) (sv : String × List (String × PyVal)) : PyFloat :=
  match lookupA sv.2 k with
  | none => acc
  | some v =>
    match pyFloat v with
    | .error _ => acc
    | .ok x =>
      match applyModify modify x with
      | .error _ => acc
      | .ok x' => pfMax acc (.finite x')

/-- One step of the reference minimum: fold a sample in, skipping it
when the key is missing or its value is non-numeric. -/
def minStep (k : String) (modify : Option (ℚ → PyVal))
    (acc : PyFloat) (sv : String × List (String × PyVal)) : PyFloat :=
  match lookupA sv.2 k with
  | none => acc
  | some v =>
    match pyFloat v with
    | .error _ => acc
    | .ok x =>
      match applyModify modify x with
      | .error _ => acc
      | .ok x' => pfMin acc (.finite x')

/-- Reference definition following the spec's words: the true maximum of
all samples' numeric values at key `k` (after the optional modify
transform), samples missing the key or holding non-numeric values
skipped; `-inf` when no numeric value is present. -/
def trueMax (k : String) (modify : Option (ℚ → PyVal)) (data : GSData) : PyFloat :=
  data.foldl (maxStep k modify) PyFloat.ninf

/-- Reference definition following the spec's words: the true minimum of
all samples' numeric values at key `k` (after the optional modify
transform), samples missing the key or holding non-numeric values
skipped; `+inf` when no numeric value is present. -/
def trueMin (k : String) (modify : Option (ℚ → PyVal)) (data : GSData) : PyFloat :=
  data.foldl (minStep k modify) PyFloat.inf

/-- The pure per-key fill of all iterated keys in order: exactly what a
successful `gsLoop` run accumulates and stores. -/
def fillList (selfName : Option String) (rand : String)
    (headers : List (String × HeaderCfg)) (data : GSData) :
    List String → Except PyErr (List (String × FilledHeader))
  | [] => .ok []
  | k :: ks =>
    match lookupA headers k with
    | none => .error (.keyError k)
    | some cfg =>
      match fillHeader selfName rand k cfg data with
      | .error e => .error e
      | .ok fh =>
        match fillList selfName rand headers data ks with
        | .error e => .error e
        | .ok rest => .ok ((k, fh) :: rest)

/-- Modelled from the spec: `report.data_sources` lives in the external
`report` module (not under the sources verified here); per spec §6 it is
the mapping `namespace → section → sample → absolute source path`, here
an auto-creating nested association map. -/
abbrev DataSources : Type := List (Option String × List (String × List (String × String)))

/-- `report.data_sources[module][sect][s_name] = source` with
auto-creation of the intermediate maps. -/
def setDS (reg : DataSources) (module : Option String) (sect s_name source : String) :
    DataSources :=
  let secs := (lookupA reg module).getD []
  let samples := (lookupA secs sect).getD []
  setA reg module (setA secs sect (setA samples s_name source))

/-- `BaseMultiqcModule.add_data_source`.  The body defaults the module to
`self.name` and the section to `'all_sections'`, then resolves the
sample name and source path from the file-descriptor dict `f` when not
given: subscripting `f = None` raises `TypeError`, and a dict missing
the field raises `KeyError`.  The surrounding `try` catches only
`AttributeError` (turning it into a logged warning and a no-op); every
other exception propagates.  Returns the uncaught exception (if any) and
the final registry. -/
def add_data_source (selfName : Option String) (reg : DataSources)
    (f : Option (List (String × String)))
    (s_name source module sect : Option String) : Option PyErr × DataSources :=
  let body : Except PyErr DataSources :=
    let module := match module with | some m => some m | none => selfName
    let sect := sect.getD "all_sections"
    match ((match s_name with
           | some s => .ok s
           | none =>
             match f with
             | none => .error PyErr.typeError
             | some d =>
               match lookupA d "s_name" with
               | some s => .ok s
               | none => .error (PyErr.keyError "s_name")) : Except PyErr String) with
    | .error e => .error e
    | .ok sname =>
      match ((match source with
             | some s => Except.ok s
             | none =>
               match f with
               | none => .error PyErr.typeError
               | some d =>
                 match lookupA d "root", lookupA d "fn" with
                 | some r, some n => .ok (r ++ "/" ++ n)
                 | none, _ => .error (PyErr.keyError "root")
                 | some _, none => .error (PyErr.keyError "fn")) : Except PyErr String) with
      | .error e => .error e
      | .ok src => .ok (setDS reg module sect sname src)
  match body with
  | .ok reg' => (none, reg')
  | .error .attributeError => (none, reg)
  | .error e => (some e, reg)

/-- The fixed default colour palette of `matplotlib_bargraph` (the same
ten colours HighCharts uses). -/
def defaultColors : List String :=
  ["#7cb5ec", "#434348", "#90ed7d", "#f7a35c", "#8085e9",
   "#f15c80", "#e4d354", "#2b908f", "#f45b5b", "#91e8e1"]

/-- The wrap-around colour-index loop of `matplotlib_bargraph`:
`cidx = idx; while cidx > len(default_colors): cidx -= len(default_colors)`. -/
def colorIdx (idx : Nat) : Nat :=
  if _h : idx > defaultColors.length then colorIdx (idx - defaultColors.length) else idx
termination_by idx
decreasing_by
  have hl : 0 < defaultColors.length := by decide
  omega

/-- Insert into a list sorted in ascending order. -/
def insertSorted {α : Type} [LinearOrder α] (a : α) : List α → List α
  | [] => [a]
  | b :: bs => if a ≤ b then a :: b :: bs else b :: insertSorted a bs

/-- Python `sorted(...)` (insertion sort, ascending). -/
def pySorted {α : Type} [LinearOrder α] (l : List α) : List α :=
  l.foldr insertSorted []

/-- One normalized category spec: `{'name': ..., 'color'?: ...}`. -/
structure CatSpec (C : Type) where
  name : C
  color : Option String
deriving DecidableEq, Repr

/-- The per-dataset categories argument of `plot_bargraph` after the
initial list-wrapping: `None` (derive from the data), a bare list of
identifiers, or an ordered dict of category specs. -/
inductive CatsArg (C : Type) where
  | noneArg
  | listArg (cs : List C)
  | dictArg (cs : List (C × CatSpec C))
deriving DecidableEq, Repr

/-- First-seen-order deduplication (stands for Python's `list(set(...))`,
whose order is unspecified; a deterministic order is chosen here). -/
def dedupAux {C : Type} [DecidableEq C] (seen : List C) : List C → List C
  | [] => []
  | c :: cs => if c ∈ seen then dedupAux seen cs else c :: dedupAux (c :: seen) cs

/-- See `dedupAux`. -/
def dedupFirst {C : Type} [DecidableEq C] (l : List C) : List C :=
  dedupAux [] l

/-- Lines 364-375 of the source: derive the categories from the data
when absent, and turn a bare list into `{'name': c}` specs. -/
def normCats {S C : Type} [DecidableEq C] (d : List (S × List (C × Int)))
    (ca : CatsArg C) : List (C × CatSpec C) :=
  match ca with
  | .noneArg =>
    (dedupFirst (d.foldr (fun sv acc => sv.2.map Prod.fst ++ acc) [])).map
      (fun c => (c, ⟨c, none⟩))
  | .listArg cs => cs.map (fun c => (c, ⟨c, none⟩))
  | .dictArg cs => cs

/-- One HighCharts-style series of the bar-graph payload. -/
structure BarSeries (C : Type) where
  name : C
  data : List Int
  color : Option String
deriving DecidableEq, Repr

/-- Python `max` over a list of ints (meaningful on non-empty lists,
which is how the code guards it). -/
def listMaxI (l : List Int) : Int :=
  l.foldl max (l.headD 0)

/-- The "parse the data into a chart friendly format" loop of
`plot_bargraph`: for each dataset, the alphabetically sorted sample
names, and for each category (in category order) the series of present
sample values, kept only when non-empty with a positive maximum. -/
def barPieces {S C : Type} [LinearOrder S] [DecidableEq C]
    (data : List (List (S × List (C × Int)))) (cats : List (CatsArg C)) :
    List (List S × List (BarSeries C)) :=
  (List.zip data cats).map (fun dc =>
    let d := dc.1
    let cd := normCats d dc.2
    let hc_samples := pySorted (d.map Prod.fst)
    let hc_data := cd.filterMap (fun ccat =>
      let thisdata := hc_samples.filterMap
        (fun s => (lookupA d s).bind (fun samp => lookupA samp ccat.1))
      if 0 < thisdata.length ∧ 0 < listMaxI thisdata then
        some ⟨ccat.2.name, thisdata, ccat.2.color⟩
      else none)
    (hc_samples, hc_data))

/-- The outcome of `plot_bargraph`: the no-data error message, or a
delegation to the static matplotlib path or the interactive HighCharts
path, carrying the normalized datasets and sample lists. -/
inductive BarResult (S C : Type) where
  | noData
  | static (pd : List (List (BarSeries C))) (ps : List (List S))
  | interactive (pd : List (List (BarSeries C))) (ps : List (List S))
deriving DecidableEq, Repr

/-- `BaseMultiqcModule.plot_bargraph` after the initial list-wrapping of
`data`/`cats`: normalize the datasets, drop datasets with no usable
series, and delegate on the first kept dataset's sample count
(`len(plotsamples[0]) > 50`). -/
def plot_bargraph {S C : Type} [LinearOrder S] [DecidableEq C]
    (data : List (List (S × List (C × Int)))) (cats : List (CatsArg C)) :
    BarResult S C :=
  let kept := (barPieces data cats).filter (fun p => 0 < p.2.length)
  match kept with
  | [] => .noData
  | p :: _ =>
    if p.1.length > 50 then .static (kept.map Prod.snd) (kept.map Prod.fst)
    else .interactive (kept.map Prod.snd) (kept.map Prod.fst)

/-- C10: a call of `general_stats_addcols` with both the data dict and
the headers dict empty iterates over no keys, so it raises nothing and
leaves `report.general_stats` completely unchanged — no entry is created
or replaced for any namespace. -/
theorem addcols_empty_noop (selfName : Option String) (rand : String) (t : GSTable)
    (nsArg : Option String) :
    general_stats_addcols selfName rand t [] [] nsArg = (none, t) := rfl

/-- C1: calling `general_stats_addcols` with data for samples
`sample1`/`sample2` at key `depth` and an empty headers dict does not
fill defaults and derived bounds for `depth`; the code iterates
`data.keys()` (the sample names) and immediately evaluates
`headers[k]['rid']` on the empty dict, raising `KeyError('sample1')`
and leaving the table untouched. -/
theorem general_stats_addcols_empty_headers_keyerror :
    general_stats_addcols (some "modA") "abcd" []
      [("sample1", [("depth", PyVal.num 10)]), ("sample2", [("depth", PyVal.num 20)])]
      [] none
    = (some (PyErr.keyError "sample1"), []) := rfl

/-- C2 (counterexample to the claim as stated): a sample holding a
non-numeric value at the scanned key does not get skipped — `float()`
raises `ValueError`, which the scan's `except KeyError` does not catch,
so the call raises. -/
theorem general_stats_addcols_nonnumeric_raises :
    (general_stats_addcols (some "modA") "abcd" []
      [("s1", [("depth", PyVal.num 10)]), ("s2", [("depth", PyVal.bad)])]
      [("depth", {})] none).1
    = some PyErr.valueError := rfl

/-- C3: calling `add_data_source` with no file descriptor and no sample
name does not warn-and-continue: resolving the sample name subscripts
`None`, which raises `TypeError`; the surrounding handler catches only
`AttributeError`, so the error propagates to the caller (the registry is
left unchanged, but the operation is not exception-free). -/
theorem add_data_source_missing_fields_typeerror :
    add_data_source (some "modA") [] none none none none none
    = (some PyErr.typeError, []) := rfl

/-- C8 (counterexample to the claim as stated): with directory
prepending enabled, re-resolving an already-resolved name with the same
configuration prepends the directory again, so the resolver is not
idempotent for every configuration. -/
theorem clean_s_name_prepend_not_idempotent :
    clean_s_name ⟨[], 0, [], true⟩
        (clean_s_name ⟨[], 0, [], true⟩ "s" (some "a")) (some "a")
    ≠ clean_s_name ⟨[], 0, [], true⟩ "s" (some "a") := by decide

/-- C4: the wrap-around colour index is not always a valid index into
the ten-colour palette: for series index 10 the loop
`while cidx > len(default_colors)` never runs (10 is not greater than
10), so `cidx = 10` and `default_colors[10]` is out of range. -/
theorem matplotlib_color_index_out_of_range :
    colorIdx 10 = 10 ∧ defaultColors.length = 10 ∧ defaultColors.get? (colorIdx 10) = none := by
  have h10 : colorIdx 10 = 10 := by
    unfold colorIdx
    decide
  refine ⟨h10, by decide, ?_⟩
  rw [h10]
  decide

/-- C6 (counterexample to the claim as stated): two runs whose second
`general_stats_addcols` calls have identical arguments (empty data,
empty headers, same namespace) end with different final states for that
namespace — a keyless second call performs no table write, so the final
state is not fully determined by the second call's arguments. -/
theorem addcols_second_call_not_determining :
    (lookupA (general_stats_addcols (some "modA") "abcd"
        (general_stats_addcols (some "modA") "abcd" []
          [("s1", [("k", PyVal.num 1)])] [("k", {})] none).2
        [] [] none).2 (some "modA")).map GSEntry.data
    ≠ (lookupA (general_stats_addcols (some "modA") "abcd"
        (general_stats_addcols (some "modA") "abcd" []
          [("s2", [("k", PyVal.num 1)])] [("k", {})] none).2
        [] [] none).2 (some "modA")).map GSEntry.data := by decide

/-- The empty pattern is an initial segment of an extended list too. -/
theorem leadsWith_append (p s u : List Char) (h : leadsWith p s = true) :
    leadsWith p (s ++ u) = true := by
  induction p generalizing s with
  | nil => simp [leadsWith]
  | cons x xs ih =>
    cases s with
    | nil => simp [leadsWith] at h
    | cons c cs =>
      simp only [List.cons_append]
      simp only [leadsWith, Bool.and_eq_true] at h ⊢
      exact ⟨h.1, ih cs h.2⟩

/-- The empty pattern occurs in every list. -/
theorem pyInL_nil (s : List Char) : pyInL [] s = true := by
  cases s <;> simp [pyInL, leadsWith]

/-- A pattern occurring in a list occurs in any extension of it. -/
theorem pyInL_append (p s u : List Char) (h : pyInL p s = true) :
    pyInL p (s ++ u) = true := by
  induction s with
  | nil =>
    cases p with
    | nil => simpa using pyInL_nil u
    | cons x xs => simp [pyInL, leadsWith] at h
  | cons c cs ih =>
    simp only [pyInL, Bool.or_eq_true] at h
    simp only [List.cons_append, pyInL, Bool.or_eq_true]
    rcases h with h | h
    · exact Or.inl (by simpa using leadsWith_append p (c :: cs) u h)
    · exact Or.inr (ih h)

/-- `pySplitFirst sep s` is an initial segment of `s`. -/
theorem pySplitFirst_ext (sep s : List Char) : ∃ t, pySplitFirst sep s ++ t = s := by
  induction s with
  | nil => exact ⟨[], rfl⟩
  | cons c cs ih =>
    by_cases hl : leadsWith sep (c :: cs) = true
    · exact ⟨c :: cs, by simp [pySplitFirst, hl]⟩
    · obtain ⟨t, ht⟩ := ih
      exact ⟨t, by simp [pySplitFirst, hl, ht]⟩

/-- A non-empty separator does not occur in the part of the string
before its first occurrence. -/
theorem pyInL_split_false (sep : List Char) (hne : sep ≠ []) (s : List Char) :
    pyInL sep (pySplitFirst sep s) = false := by
  obtain ⟨x, xs, rfl⟩ : ∃ x xs, sep = x :: xs := by
    cases sep with
    | nil => exact absurd rfl hne
    | cons x xs => exact ⟨x, xs, rfl⟩
  induction s with
  | nil => simp [pySplitFirst, pyInL, leadsWith]
  | cons c cs ih =>
    by_cases hl : leadsWith (x :: xs) (c :: cs) = true
    · rw [pySplitFirst, if_pos hl]
      simp [pyInL, leadsWith]
    · rw [pySplitFirst, if_neg hl]
      have hlead : leadsWith (x :: xs) (c :: pySplitFirst (x :: xs) cs) = false := by
        cases hh : leadsWith (x :: xs) (c :: pySplitFirst (x :: xs) cs) with
        | false => rfl
        | true =>
          obtain ⟨u, hu⟩ := pySplitFirst_ext (x :: xs) cs
          have := leadsWith_append (x :: xs) (c :: pySplitFirst (x :: xs) cs) u hh
          rw [List.cons_append, hu] at this
          exact absurd this hl
      simp only [pyInL, hlead, ih, Bool.or_self]

/-- A separator not occurring in the string leaves it unsplit. -/
theorem pySplitFirst_id (sep s : List Char) (h : pyInL sep s = false) :
    pySplitFirst sep s = s := by
  induction s with
  | nil => rfl
  | cons c cs ih =>
    simp only [pyInL, Bool.or_eq_false_iff] at h
    rw [pySplitFirst, if_neg (by simp [h.1]), ih h.2]

/-- The cleaned core is an initial segment of the input name. -/
theorem cleanCore_ext (exts : List (List Char)) (s : List Char) :
    ∃ t, cleanCore exts s ++ t = s := by
  induction exts generalizing s with
  | nil => exact ⟨[], by simp [cleanCore]⟩
  | cons e es ih =>
    obtain ⟨t1, ht1⟩ := ih (pySplitFirst e s)
    obtain ⟨t2, ht2⟩ := pySplitFirst_ext e s
    refine ⟨t1 ++ t2, ?_⟩
    have hstep : cleanCore (e :: es) s = cleanCore es (pySplitFirst e s) := rfl
    rw [hstep, ← List.append_assoc, ht1, ht2]

/-- A pattern absent from a string is absent from its initial segments. -/
theorem pyInL_of_ext (t s s' : List Char) (h : pyInL t s = false)
    (hx : ∃ u, s' ++ u = s) : pyInL t s' = false := by
  cases hs : pyInL t s' with
  | false => rfl
  | true =>
    obtain ⟨u, hu⟩ := hx
    have htrue := pyInL_append t s' u hs
    rw [hu] at htrue
    rw [htrue] at h
    cases h

/-- After the truncation pass, no non-empty cleaning token occurs in the
result: each token is removed by its own split, and later splits only
take initial segments. -/
theorem cleanCore_not_in (exts : List (List Char))
    (hne : ∀ e ∈ exts, e ≠ []) (s : List Char) :
    ∀ t ∈ exts, pyInL t (cleanCore exts s) = false := by
  induction exts generalizing s with
  | nil => intro t ht; cases ht
  | cons e es ih =>
    intro t ht
    have hcons : cleanCore (e :: es) s = cleanCore es (pySplitFirst e s) := rfl
    rcases List.mem_cons.mp ht with rfl | hmem
    · have h1 : pyInL t (pySplitFirst t s) = false :=
        pyInL_split_false t (hne t (List.mem_cons_self _ _)) s
      rw [hcons]
      exact pyInL_of_ext t _ _ h1 (cleanCore_ext es (pySplitFirst t s))
    · rw [hcons]
      exact ih (fun e' he' => hne e' (List.mem_cons_of_mem _ he')) (pySplitFirst e s) t hmem

/-- The truncation pass is the identity on strings already free of every
token. -/
theorem cleanCore_id (exts : List (List Char)) (s : List Char)
    (h : ∀ t ∈ exts, pyInL t s = false) : cleanCore exts s = s := by
  induction exts with
  | nil => rfl
  | cons e es ih =>
    have h1 : pySplitFirst e s = s := pySplitFirst_id e s (h e (List.mem_cons_self _ _))
    have hstep : cleanCore (e :: es) s = cleanCore es (pySplitFirst e s) := rfl
    rw [hstep, h1, ih (fun t ht => h t (List.mem_cons_of_mem _ ht))]

/-- C8 (amended): `clean_s_name` truncates at the first occurrence of
each cleaning token in configured order — so no non-empty configured
token occurs in the resolved name — and, when directory prepending is
disabled, re-applying the resolver with the same configuration to an
already-resolved name yields the same string.  (With prepending enabled
the resolver is not idempotent; see the counterexample.) -/
theorem clean_s_name_truncation_idempotent (cfg : SearchConfig)
    (hne : ∀ e ∈ cfg.fn_clean_exts, e.data ≠ [])
    (hp : cfg.prepend_dirs = false) (s : String) (root root' : Option String) :
    (∀ e ∈ cfg.fn_clean_exts, pyInL e.data (clean_s_name cfg s root).data = false) ∧
    clean_s_name cfg (clean_s_name cfg s root) root' = clean_s_name cfg s root := by
  have hcs : ∀ (x : String) (r : Option String),
      clean_s_name cfg x r = ⟨cleanCore (cfg.fn_clean_exts.map String.data) x.data⟩ := by
    intro x r
    simp [clean_s_name, hp]
  have hne' : ∀ e ∈ cfg.fn_clean_exts.map String.data, e ≠ [] := by
    intro e he
    obtain ⟨e0, he0, rfl⟩ := List.mem_map.mp he
    exact hne e0 he0
  constructor
  · intro e he
    rw [hcs]
    exact cleanCore_not_in _ hne' s.data e.data (List.mem_map_of_mem _ he)
  · rw [hcs s root, hcs _ root']
    congr 1
    exact cleanCore_id _ _ (cleanCore_not_in _ hne' s.data)

/-- Witness for the amended C8 theorem at a concrete configuration. -/
theorem clean_s_name_truncation_idempotent_witness :
    pyInL "_R1".data (clean_s_name ⟨[], 0, ["_R1"], false⟩ "samp_R1.fastq" (some "d")).data
      = false ∧
    clean_s_name ⟨[], 0, ["_R1"], false⟩
        (clean_s_name ⟨[], 0, ["_R1"], false⟩ "samp_R1.fastq" (some "d")) (some "d2")
      = clean_s_name ⟨[], 0, ["_R1"], false⟩ "samp_R1.fastq" (some "d") := by
  have h := clean_s_name_truncation_idempotent ⟨[], 0, ["_R1"], false⟩
    (by decide) rfl "samp_R1.fastq" (some "d") (some "d2")
  exact ⟨h.1 "_R1" (by decide), h.2⟩

/-- Every file the per-file loop attempts to open is the candidate
itself. -/
theorem processFile_opened_sub (cfg : SearchConfig) (fnm : String → String → Bool)
    (fn_match cm : Option (List String)) (fc fh : Bool) (f : PyFile) :
    ∀ pr ∈ (processFile cfg fnm fn_match cm fc fh f).2, pr = (f.root, f.fn) := by
  intro pr hpr
  simp only [processFile] at hpr
  repeat' split at hpr
  all_goals try (exact absurd rfl (by assumption))
  all_goals simp_all

/-- Every yield the per-file loop produces names the candidate itself. -/
theorem processFile_yield_sub (cfg : SearchConfig) (fnm : String → String → Bool)
    (fn_match cm : Option (List String)) (fc fh : Bool) (f : PyFile) :
    ∀ y ∈ (processFile cfg fnm fn_match cm fc fh f).1,
      ∃ lm : LogMatch, y = some lm ∧ lm.root = f.root ∧ lm.fn = f.fn := by
  intro y hy
  simp only [processFile] at hy
  repeat' split at hy
  all_goals try (exact absurd rfl (by assumption))
  all_goals first
  | exact ⟨_, by simpa using hy, rfl, rfl⟩
  | simp_all

/-- A file that matched no filename token and exceeds the size limit is
never marked for reading. -/
theorem readFileFlag_oversized (cfg : SearchConfig) (cm : Option (List String))
    (f : PyFile) (hs : f.size > cfg.log_filesize_limit) :
    readFileFlag cfg cm false f = false := by
  unfold readFileFlag
  repeat' split
  all_goals rfl


/-- A file that matched no filename token and exceeds the size limit
contributes nothing: it is neither opened nor yielded. -/
theorem processFile_oversized (cfg : SearchConfig) (fnm : String → String → Bool)
    (fn_match cm : Option (List String)) (fc fh : Bool) (f : PyFile)
    (hfm : fnMatched fn_match f.fn = false)
    (hs : f.size > cfg.log_filesize_limit) :
    processFile cfg fnm fn_match cm fc fh f = ([], []) := by
  have hflag := readFileFlag_oversized cfg cm f hs
  simp only [processFile]
  split
  · rfl
  · rw [hfm, hflag]
    simp

/-- Lifting `processFile_oversized` over the whole walked file list. -/
theorem flfLoop_oversized (cfg : SearchConfig) (fnm : String → String → Bool)
    (fn_match cm : Option (List String)) (fc fh : Bool) (r n : String)
    (files : List PyFile)
    (H : ∀ f ∈ files, f.root = r → f.fn = n →
      fnMatched fn_match f.fn = false ∧ f.size > cfg.log_filesize_limit) :
    (r, n) ∉ (flfLoop cfg fnm fn_match cm fc fh files).2 ∧
    (∀ lm : LogMatch, some lm ∈ (flfLoop cfg fnm fn_match cm fc fh files).1 →
      ¬(lm.root = r ∧ lm.fn = n)) := by
  induction files with
  | nil => simp [flfLoop]
  | cons f fs ih =>
    have ihh := ih (fun g hg => H g (List.mem_cons_of_mem _ hg))
    by_cases hf : f.root = r ∧ f.fn = n
    · have hov := H f (List.mem_cons_self _ _) hf.1 hf.2
      have hp : processFile cfg fnm fn_match cm fc fh f = ([], []) :=
        processFile_oversized cfg fnm fn_match cm fc fh f hov.1 hov.2
      constructor
      · intro hmem
        simp only [flfLoop, hp, List.nil_append] at hmem
        exact ihh.1 hmem
      · intro lm hlm
        simp only [flfLoop, hp, List.nil_append] at hlm
        exact ihh.2 lm hlm
    · constructor
      · intro hmem
        simp only [flfLoop, List.mem_append] at hmem
        rcases hmem with hmem | hmem
        · have heq := processFile_opened_sub cfg fnm fn_match cm fc fh f (r, n) hmem
          apply hf
          exact ⟨(congrArg Prod.fst heq).symm, (congrArg Prod.snd heq).symm⟩
        · exact ihh.1 hmem
      · intro lm hlm
        simp only [flfLoop, List.mem_append] at hlm
        rcases hlm with hlm | hlm
        · obtain ⟨lm', heq, hroot, hfn⟩ :=
            processFile_yield_sub cfg fnm fn_match cm fc fh f (some lm) hlm
          intro hc
          apply hf
          cases Option.some.injEq lm lm' ▸ heq
          exact ⟨hc.1 ▸ hroot ▸ rfl, hc.2 ▸ hfn ▸ rfl⟩
        · exact ihh.2 lm hlm

/-- C7: a candidate file that matched no filename token and whose size
exceeds the configured limit is never opened or read by the discovery
engine and is never yielded as a (content) match, for every directory
tree, pattern set and mode. -/
theorem find_log_files_oversized_never_read (cfg : SearchConfig)
    (fnm : String → String → Bool) (files : List PyFile)
    (fn_match cm : Option (List String)) (fc fh : Bool) (r n : String)
    (H : ∀ f ∈ files, f.root = r → f.fn = n →
      fnMatched fn_match f.fn = false ∧ f.size > cfg.log_filesize_limit) :
    (r, n) ∉ (find_log_files cfg fnm files fn_match cm fc fh).2 ∧
    (∀ lm : LogMatch, some lm ∈ (find_log_files cfg fnm files fn_match cm fc fh).1 →
      ¬(lm.root = r ∧ lm.fn = n)) := by
  have h := flfLoop_oversized cfg fnm fn_match cm fc fh r n files H
  constructor
  · exact h.1
  · intro lm hlm
    simp only [find_log_files] at hlm
    split at hlm
    · rcases List.mem_cons.mp hlm with h0 | hlm'
      · cases h0
      · exact h.2 lm hlm'
    · exact h.2 lm hlm

/-- Witness for C7 at a concrete oversized file. -/
theorem find_log_files_oversized_never_read_witness :
    ("/d", "big.txt") ∉ (find_log_files ⟨[], 100, [], false⟩ (fun _ _ => false)
      [⟨"/d", "big.txt", 1000000, none, none, ["hello"], true, true⟩]
      none (some ["hello"]) true false).2 ∧
    (∀ lm : LogMatch, some lm ∈ (find_log_files ⟨[], 100, [], false⟩ (fun _ _ => false)
      [⟨"/d", "big.txt", 1000000, none, none, ["hello"], true, true⟩]
      none (some ["hello"]) true false).1 →
      ¬(lm.root = "/d" ∧ lm.fn = "big.txt")) := by
  exact find_log_files_oversized_never_read ⟨[], 100, [], false⟩ (fun _ _ => false)
    [⟨"/d", "big.txt", 1000000, none, none, ["hello"], true, true⟩]
    none (some ["hello"]) true false "/d" "big.txt" (by decide)

/-- C9: a candidate file (not config-ignored) that matched a filename
token is processed with neither the size-limit check nor the MIME
type/encoding sniff: in contents mode it is opened and fully read, and
the outcome is the same for every size and every guessed MIME type and
encoding, all of which are universally quantified here and appear
nowhere in the hypotheses. -/
theorem fn_matched_skips_filters (cfg : SearchConfig) (fnm : String → String → Bool)
    (cm : Option (List String)) (ms : List String)
    (root fn : String) (size : Nat) (mt me : Option String) (lines : List String)
    (rs : Bool)
    (hig : cfg.fn_ignore_files.filter (fun p => fnm fn p) = [])
    (hm : fnMatched (some ms) fn = true) :
    processFile cfg fnm (some ms) cm true false ⟨root, fn, size, mt, me, lines, rs, true⟩ =
      ([some ⟨clean_s_name cfg fn (some root), root, fn,
        MatchPayload.contents (fullText ⟨root, fn, size, mt, me, lines, rs, true⟩)⟩],
       [(root, fn)]) := by
  have hflag : readFileFlag cfg cm true ⟨root, fn, size, mt, me, lines, rs, true⟩ = true := by
    unfold readFileFlag
    simp
  simp [processFile, hig, hm, hflag]

/-- Witness for C9: an oversized gzip-typed file that matched the
filename token `log` is slurped whole. -/
theorem fn_matched_skips_filters_witness :
    processFile ⟨[], 5, [], false⟩ (fun _ _ => false) (some ["log"]) (some ["z"]) true false
        ⟨"/d", "a.log", 123456789, some "application/gzip", some "gzip",
          ["line1"], true, true⟩ =
      ([some ⟨clean_s_name ⟨[], 5, [], false⟩ "a.log" (some "/d"), "/d", "a.log",
        MatchPayload.contents (fullText ⟨"/d", "a.log", 123456789,
          some "application/gzip", some "gzip", ["line1"], true, true⟩)⟩],
       [("/d", "a.log")]) := by
  exact fn_matched_skips_filters ⟨[], 5, [], false⟩ (fun _ _ => false) (some ["z"]) ["log"]
    "/d" "a.log" 123456789 (some "application/gzip") (some "gzip") ["line1"] true
    (by decide) (by decide)

/-- Looking a key up after assigning it returns the assigned value. -/
theorem lookupA_setA {α β : Type} [DecidableEq α] (t : List (α × β)) (k : α) (v : β) :
    lookupA (setA t k v) k = some v := by
  induction t with
  | nil => simp [setA, lookupA]
  | cons p rest ih =>
    obtain ⟨a, b⟩ := p
    by_cases h : a = k
    · simp [setA, h, lookupA]
    · simp [setA, h, lookupA, ih]

/-- Re-assigning the same key overwrites the previous assignment. -/
theorem setA_setA {α β : Type} [DecidableEq α] (t : List (α × β)) (k : α) (a b : β) :
    setA (setA t k a) k b = setA t k b := by
  induction t with
  | nil => simp [setA]
  | cons p rest ih =>
    obtain ⟨x, y⟩ := p
    by_cases h : x = k
    · simp [setA, h]
    · simp [setA, h, ih]

/-- In an association list with pairwise-distinct keys, lookup finds the
value paired with a member key. -/
theorem lookupA_of_mem_nodup {α β : Type} [DecidableEq α] {l : List (α × β)}
    {k : α} {v : β} (h : (k, v) ∈ l) (hnd : (l.map Prod.fst).Nodup) :
    lookupA l k = some v := by
  induction l with
  | nil => cases h
  | cons p rest ih =>
    obtain ⟨a, b⟩ := p
    simp only [List.map_cons, List.nodup_cons] at hnd
    rcases List.mem_cons.mp h with heq | hmem
    · cases heq
      simp [lookupA]
    · have hk : ¬ a = k := fun he =>
        hnd.1 (by rw [he]; exact List.mem_map_of_mem Prod.fst hmem)
      simp [lookupA, hk, ih hmem hnd.2]

/-- Whether the stats loop raises does not depend on the table it
started from (the table is only written, never read). -/
theorem gsLoop_err_indep (selfName : Option String) (rand : String)
    (headers : List (String × HeaderCfg)) (data : GSData) (ns : Option String) :
    ∀ (ks : List String) (acc : List (String × FilledHeader)) (t t' : GSTable),
      (gsLoop selfName rand headers data ns ks acc t).1 =
      (gsLoop selfName rand headers data ns ks acc t').1 := by
  intro ks
  induction ks with
  | nil => intro acc t t'; rfl
  | cons k ks ih =>
    intro acc t t'
    cases hl : lookupA headers k with
    | none => simp [gsLoop, hl]
    | some cfg =>
      cases hf : fillHeader selfName rand k cfg data with
      | error e => simp [gsLoop, hl, hf]
      | ok fh =>
        simp only [gsLoop, hl, hf]
        exact ih _ _ _

/-- On a run that raises nothing, the loop computes exactly the pure
per-key fills, and (when at least one key was iterated) its final table
is the starting table with the namespace's entry re-assigned to the data
and the filled headers. -/
theorem gsLoop_ok (selfName : Option String) (rand : String)
    (headers : List (String × HeaderCfg)) (data : GSData) (ns : Option String) :
    ∀ (ks : List String) (acc : List (String × FilledHeader)) (t : GSTable),
      (gsLoop selfName rand headers data ns ks acc t).1 = none →
      ∃ fs, fillList selfName rand headers data ks = .ok fs ∧
        (ks = [] → (gsLoop selfName rand headers data ns ks acc t).2 = t) ∧
        (ks ≠ [] → (gsLoop selfName rand headers data ns ks acc t).2 =
          setA t ns ⟨data, acc ++ fs⟩) := by
  intro ks
  induction ks with
  | nil =>
    intro acc t _
    exact ⟨[], rfl, fun _ => rfl, fun h => absurd rfl h⟩
  | cons k ks ih =>
    intro acc t hok
    cases hl : lookupA headers k with
    | none => simp [gsLoop, hl] at hok
    | some cfg =>
      cases hf : fillHeader selfName rand k cfg data with
      | error e => simp [gsLoop, hl, hf] at hok
      | ok fh =>
        have hok' : (gsLoop selfName rand headers data ns ks (acc ++ [(k, fh)])
            (setA t ns ⟨data, acc ++ [(k, fh)]⟩)).1 = none := by
          simpa [gsLoop, hl, hf] using hok
        obtain ⟨fs, hfs, hnil, hcons⟩ := ih (acc ++ [(k, fh)])
          (setA t ns ⟨data, acc ++ [(k, fh)]⟩) hok'
        have hstep : (gsLoop selfName rand headers data ns (k :: ks) acc t).2 =
            (gsLoop selfName rand headers data ns ks (acc ++ [(k, fh)])
              (setA t ns ⟨data, acc ++ [(k, fh)]⟩)).2 := by
          simp [gsLoop, hl, hf]
        refine ⟨(k, fh) :: fs, by simp [fillList, hl, hf, hfs],
          fun h => absurd h (by simp), fun _ => ?_⟩
        rw [hstep]
        cases ks with
        | nil =>
          have hfse : fs = [] := by
            have := hfs
            simp only [fillList] at this
            exact (Except.ok.inj this).symm
          subst hfse
          rw [hnil rfl]
        | cons k2 ks2 =>
          rw [hcons (by simp), setA_setA]
          simp

/-- Looking up a member key (under distinct keys) in the pure fill list
gives that key's own fill. -/
theorem fillList_lookup (selfName : Option String) (rand : String)
    (headers : List (String × HeaderCfg)) (data : GSData) :
    ∀ (ks : List String) (fs : List (String × FilledHeader)),
      fillList selfName rand headers data ks = .ok fs →
      ∀ (k : String) (cfg : HeaderCfg), k ∈ ks → ks.Nodup →
        lookupA headers k = some cfg →
        ∃ fh, fillHeader selfName rand k cfg data = .ok fh ∧ lookupA fs k = some fh := by
  intro ks
  induction ks with
  | nil => intro fs _ k cfg hk; cases hk
  | cons k0 ks ih =>
    intro fs hfs k cfg hk hnd hl
    cases hl0 : lookupA headers k0 with
    | none => simp [fillList, hl0] at hfs
    | some cfg0 =>
      cases hf0 : fillHeader selfName rand k0 cfg0 data with
      | error e => simp [fillList, hl0, hf0] at hfs
      | ok fh0 =>
        cases hrest : fillList selfName rand headers data ks with
        | error e => simp [fillList, hl0, hf0, hrest] at hfs
        | ok rest =>
          have hfse : fs = (k0, fh0) :: rest := by
            have := hfs
            simp only [fillList, hl0, hf0, hrest] at this
            exact (Except.ok.inj this).symm
          subst hfse
          rcases List.mem_cons.mp hk with rfl | hmem
          · rw [hl] at hl0
            have hcfg : cfg = cfg0 := Option.some.inj hl0
            subst hcfg
            exact ⟨fh0, hf0, by simp [lookupA]⟩
          · have hk0ne : ¬ k0 = k := fun he =>
              (List.nodup_cons.mp hnd).1 (he ▸ hmem)
            obtain ⟨fh, hfh, hlk⟩ := ih rest hrest k cfg hmem (List.nodup_cons.mp hnd).2 hl
            exact ⟨fh, hfh, by simp [lookupA, hk0ne, hlk]⟩

/-- When the max bound is being derived, a successful scan computes the
fold of the reference max step over the samples. -/
theorem scanBounds_max (k : String) (modify : Option (ℚ → PyVal)) (sd : Bool) :
    ∀ (data : GSData) (dmax dmin : PyFloat) (out : PyFloat × PyFloat),
      scanBounds k modify true sd data dmax dmin = .ok out →
      out.1 = data.foldl (maxStep k modify) dmax := by
  intro data
  induction data with
  | nil =>
    intro dmax dmin out h
    simp only [scanBounds] at h
    rw [← Except.ok.inj h]
    rfl
  | cons sv rest ih =>
    intro dmax dmin out h
    obtain ⟨sname, samp⟩ := sv
    cases hl : lookupA samp k with
    | none =>
      have h' : scanBounds k modify true sd rest dmax dmin = .ok out := by
        simpa [scanBounds, hl] using h
      simpa [List.foldl_cons, maxStep, hl] using ih dmax dmin out h'
    | some v =>
      cases hv : pyFloat v with
      | error e => simp [scanBounds, hl, hv] at h
      | ok x =>
        cases hm : applyModify modify x with
        | error e => simp [scanBounds, hl, hv, hm] at h
        | ok x' =>
          have h' : scanBounds k modify true sd rest (pfMax dmax (.finite x'))
              (if sd then pfMin dmin (.finite x') else dmin) = .ok out := by
            simpa [scanBounds, hl, hv, hm] using h
          simpa [List.foldl_cons, maxStep, hl, hv, hm] using ih _ _ out h'

/-- When the min bound is being derived, a successful scan computes the
fold of the reference min step over the samples. -/
theorem scanBounds_min (k : String) (modify : Option (ℚ → PyVal)) (sd : Bool) :
    ∀ (data : GSData) (dmax dmin : PyFloat) (out : PyFloat × PyFloat),
      scanBounds k modify sd true data dmax dmin = .ok out →
      out.2 = data.foldl (minStep k modify) dmin := by
  intro data
  induction data with
  | nil =>
    intro dmax dmin out h
    simp only [scanBounds] at h
    rw [← Except.ok.inj h]
    rfl
  | cons sv rest ih =>
    intro dmax dmin out h
    obtain ⟨sname, samp⟩ := sv
    cases hl : lookupA samp k with
    | none =>
      have h' : scanBounds k modify sd true rest dmax dmin = .ok out := by
        simpa [scanBounds, hl] using h
      simpa [List.foldl_cons, minStep, hl] using ih dmax dmin out h'
    | some v =>
      cases hv : pyFloat v with
      | error e => simp [scanBounds, hl, hv] at h
      | ok x =>
        cases hm : applyModify modify x with
        | error e => simp [scanBounds, hl, hv, hm] at h
        | ok x' =>
          have h' : scanBounds k modify sd true rest
              (if sd then pfMax dmax (.finite x') else dmax)
              (pfMin dmin (.finite x')) = .ok out := by
            simpa [scanBounds, hl, hv, hm] using h
          simpa [List.foldl_cons, minStep, hl, hv, hm] using ih _ _ out h'

/-- A fixed max bound is never touched by the scan. -/
theorem scanBounds_max_keep (k : String) (modify : Option (ℚ → PyVal)) (sd : Bool) :
    ∀ (data : GSData) (dmax dmin : PyFloat) (out : PyFloat × PyFloat),
      scanBounds k modify false sd data dmax dmin = .ok out → out.1 = dmax := by
  intro data
  induction data with
  | nil =>
    intro dmax dmin out h
    simp only [scanBounds] at h
    rw [← Except.ok.inj h]
  | cons sv rest ih =>
    intro dmax dmin out h
    obtain ⟨sname, samp⟩ := sv
    cases hl : lookupA samp k with
    | none => exact ih dmax dmin out (by simpa [scanBounds, hl] using h)
    | some v =>
      cases hv : pyFloat v with
      | error e => simp [scanBounds, hl, hv] at h
      | ok x =>
        cases hm : applyModify modify x with
        | error e => simp [scanBounds, hl, hv, hm] at h
        | ok x' =>
          exact ih dmax _ out (by simpa [scanBounds, hl, hv, hm] using h)

/-- A fixed min bound is never touched by the scan. -/
theorem scanBounds_min_keep (k : String) (modify : Option (ℚ → PyVal)) (sd : Bool) :
    ∀ (data : GSData) (dmax dmin : PyFloat) (out : PyFloat × PyFloat),
      scanBounds k modify sd false data dmax dmin = .ok out → out.2 = dmin := by
  intro data
  induction data with
  | nil =>
    intro dmax dmin out h
    simp only [scanBounds] at h
    rw [← Except.ok.inj h]
  | cons sv rest ih =>
    intro dmax dmin out h
    obtain ⟨sname, samp⟩ := sv
    cases hl : lookupA samp k with
    | none => exact ih dmax dmin out (by simpa [scanBounds, hl] using h)
    | some v =>
      cases hv : pyFloat v with
      | error e => simp [scanBounds, hl, hv] at h
      | ok x =>
        cases hm : applyModify modify x with
        | error e => simp [scanBounds, hl, hv, hm] at h
        | ok x' =>
          exact ih _ dmin out (by simpa [scanBounds, hl, hv, hm] using h)

/-- With no configured max, a successful fill stores the scanned (true)
maximum. -/
theorem fillHeader_dmax_scan (selfName : Option String) (rand k : String)
    (cfg : HeaderCfg) (data : GSData) (fh : FilledHeader)
    (hmax : cfg.max = none)
    (h : fillHeader selfName rand k cfg data = .ok fh) :
    fh.dmax = trueMax k cfg.modify data := by
  cases hmin : cfg.min with
  | none =>
    cases hs : scanBounds k cfg.modify true true data .ninf .inf with
    | error e => simp [fillHeader, Except.map, hmax, hmin, hs] at h
    | ok out =>
      have hout := scanBounds_max k cfg.modify true data .ninf .inf out hs
      obtain ⟨dmax, dmin⟩ := out
      simp [fillHeader, Except.map, hmax, hmin, hs] at h
      rw [← h]
      exact hout
  | some v =>
    cases hv : pyFloat v with
    | error e => simp [fillHeader, Except.map, hmax, hmin, hv] at h
    | ok x =>
      cases hs : scanBounds k cfg.modify true false data .ninf (.finite x) with
      | error e => simp [fillHeader, Except.map, hmax, hmin, hv, hs] at h
      | ok out =>
        have hout := scanBounds_max k cfg.modify false data .ninf (.finite x) out hs
        obtain ⟨dmax, dmin⟩ := out
        simp [fillHeader, Except.map, hmax, hmin, hv, hs] at h
        rw [← h]
        exact hout

/-- With no configured min, a successful fill stores the scanned (true)
minimum. -/
theorem fillHeader_dmin_scan (selfName : Option String) (rand k : String)
    (cfg : HeaderCfg) (data : GSData) (fh : FilledHeader)
    (hmin : cfg.min = none)
    (h : fillHeader selfName rand k cfg data = .ok fh) :
    fh.dmin = trueMin k cfg.modify data := by
  cases hmax : cfg.max with
  | none =>
    cases hs : scanBounds k cfg.modify true true data .ninf .inf with
    | error e => simp [fillHeader, Except.map, hmax, hmin, hs] at h
    | ok out =>
      have hout := scanBounds_min k cfg.modify true data .ninf .inf out hs
      obtain ⟨dmax, dmin⟩ := out
      simp [fillHeader, Except.map, hmax, hmin, hs] at h
      rw [← h]
      exact hout
  | some v =>
    cases hv : pyFloat v with
    | error e => simp [fillHeader, Except.map, hmax, hmin, hv] at h
    | ok x =>
      cases hs : scanBounds k cfg.modify false true data (.finite x) .inf with
      | error e => simp [fillHeader, Except.map, hmax, hmin, hv, hs] at h
      | ok out =>
        have hout := scanBounds_min k cfg.modify false data (.finite x) .inf out hs
        obtain ⟨dmax, dmin⟩ := out
        simp [fillHeader, Except.map, hmax, hmin, hv, hs] at h
        rw [← h]
        exact hout

/-- A configured (numeric) max is stored verbatim as the derived max and
is never overwritten by the scan. -/
theorem fillHeader_dmax_fixed (selfName : Option String) (rand k : String)
    (cfg : HeaderCfg) (data : GSData) (fh : FilledHeader) (v : PyVal) (x : ℚ)
    (hmax : cfg.max = some v) (hv : pyFloat v = .ok x)
    (h : fillHeader selfName rand k cfg data = .ok fh) :
    fh.dmax = PyFloat.finite x := by
  cases hmin : cfg.min with
  | none =>
    cases hs : scanBounds k cfg.modify false true data (.finite x) .inf with
    | error e => simp [fillHeader, Except.map, hmax, hmin, hv, hs] at h
    | ok out =>
      have hout := scanBounds_max_keep k cfg.modify true data (.finite x) .inf out hs
      obtain ⟨dmax, dmin⟩ := out
      simp [fillHeader, Except.map, hmax, hmin, hv, hs] at h
      rw [← h]
      exact hout
  | some w =>
    cases hw : pyFloat w with
    | error e => simp [fillHeader, Except.map, hmax, hmin, hv, hw] at h
    | ok y =>
      simp [fillHeader, Except.map, hmax, hmin, hv, hw] at h
      rw [← h]

/-- A configured (numeric) min is stored verbatim as the derived min and
is never overwritten by the scan. -/
theorem fillHeader_dmin_fixed (selfName : Option String) (rand k : String)
    (cfg : HeaderCfg) (data : GSData) (fh : FilledHeader) (v : PyVal) (x : ℚ)
    (hmin : cfg.min = some v) (hv : pyFloat v = .ok x)
    (h : fillHeader selfName rand k cfg data = .ok fh) :
    fh.dmin = PyFloat.finite x := by
  cases hmax : cfg.max with
  | none =>
    cases hs : scanBounds k cfg.modify true false data .ninf (.finite x) with
    | error e => simp [fillHeader, Except.map, hmax, hmin, hv, hs] at h
    | ok out =>
      have hout := scanBounds_min_keep k cfg.modify true data .ninf (.finite x) out hs
      obtain ⟨dmax, dmin⟩ := out
      simp [fillHeader, Except.map, hmax, hmin, hv, hs] at h
      rw [← h]
      exact hout
  | some w =>
    cases hw : pyFloat w with
    | error e => simp [fillHeader, Except.map, hmax, hmin, hv, hw] at h
    | ok y =>
      simp [fillHeader, Except.map, hmax, hmin, hv, hw] at h
      rw [← h]

/-- C2 (amended): for a metric key `k` configured in the headers (keys
pairwise distinct), when a call of `general_stats_addcols` completes
without raising, the stored derived max/min equal the true max/min of
all samples' numeric values at `k` (after the optional modify
transform, samples missing the key skipped without error) whenever the
corresponding bound was not configured, and equal the configured value
verbatim — never overwritten by scanned data — whenever it was.  (As
stated the claim is false: a non-numeric sample value is not skipped but
raises, because only `KeyError` is caught; see the counterexample.) -/
theorem general_stats_addcols_bounds (selfName : Option String) (rand : String)
    (t : GSTable) (data : GSData) (headers : List (String × HeaderCfg))
    (nsArg : Option String) (k : String) (cfg : HeaderCfg)
    (hnd : (headers.map Prod.fst).Nodup)
    (hmem : (k, cfg) ∈ headers)
    (hok : (general_stats_addcols selfName rand t data headers nsArg).1 = none) :
    (cfg.max = none →
      dmaxAt (general_stats_addcols selfName rand t data headers nsArg).2
        (gsNs nsArg selfName) k = some (trueMax k cfg.modify data)) ∧
    (cfg.min = none →
      dminAt (general_stats_addcols selfName rand t data headers nsArg).2
        (gsNs nsArg selfName) k = some (trueMin k cfg.modify data)) ∧
    (∀ (v : PyVal) (x : ℚ), cfg.max = some v → pyFloat v = .ok x →
      dmaxAt (general_stats_addcols selfName rand t data headers nsArg).2
        (gsNs nsArg selfName) k = some (PyFloat.finite x)) ∧
    (∀ (v : PyVal) (x : ℚ), cfg.min = some v → pyFloat v = .ok x →
      dminAt (general_stats_addcols selfName rand t data headers nsArg).2
        (gsNs nsArg selfName) k = some (PyFloat.finite x)) := by
  have hne : headers ≠ [] := List.ne_nil_of_mem hmem
  have hlen : headers.length > 0 := List.length_pos.mpr hne
  have hloop : general_stats_addcols selfName rand t data headers nsArg
      = gsLoop selfName rand headers data (gsNs nsArg selfName)
          (headers.map Prod.fst) [] t := by
    simp [general_stats_addcols, hlen]
  rw [hloop] at hok ⊢
  obtain ⟨fs, hfs, -, hcons⟩ :=
    gsLoop_ok selfName rand headers data (gsNs nsArg selfName)
      (headers.map Prod.fst) [] t hok
  have hkeysne : headers.map Prod.fst ≠ [] := by
    intro hmape
    exact hne (List.map_eq_nil_iff.mp hmape)
  have htab := hcons hkeysne
  have hlk : lookupA headers k = some cfg := lookupA_of_mem_nodup hmem hnd
  have hkmem : k ∈ headers.map Prod.fst := List.mem_map_of_mem Prod.fst hmem
  obtain ⟨fh, hfh, hfslk⟩ := fillList_lookup selfName rand headers data
    (headers.map Prod.fst) fs hfs k cfg hkmem hnd hlk
  have hentry : lookupA (gsLoop selfName rand headers data (gsNs nsArg selfName)
      (headers.map Prod.fst) [] t).2 (gsNs nsArg selfName)
      = some ⟨data, [] ++ fs⟩ := by
    rw [htab]
    exact lookupA_setA t (gsNs nsArg selfName) _
  have hdmax : dmaxAt (gsLoop selfName rand headers data (gsNs nsArg selfName)
      (headers.map Prod.fst) [] t).2 (gsNs nsArg selfName) k = some fh.dmax := by
    simp [dmaxAt, hentry, hfslk]
  have hdmin : dminAt (gsLoop selfName rand headers data (gsNs nsArg selfName)
      (headers.map Prod.fst) [] t).2 (gsNs nsArg selfName) k = some fh.dmin := by
    simp [dminAt, hentry, hfslk]
  refine ⟨?_, ?_, ?_, ?_⟩
  · intro hmax
    rw [hdmax, fillHeader_dmax_scan selfName rand k cfg data fh hmax hfh]
  · intro hmin
    rw [hdmin, fillHeader_dmin_scan selfName rand k cfg data fh hmin hfh]
  · intro v x hmax hv
    rw [hdmax, fillHeader_dmax_fixed selfName rand k cfg data fh v x hmax hv hfh]
  · intro v x hmin hv
    rw [hdmin, fillHeader_dmin_fixed selfName rand k cfg data fh v x hmin hv hfh]

/-- Witness for the amended C2 theorem: with no configured bounds, the
spec example `{sample1: {depth: 10}, sample2: {depth: 20}}` derives
`dmax = 20` and `dmin = 10`. -/
theorem general_stats_addcols_bounds_witness :
    dmaxAt (general_stats_addcols (some "modA") "abcd" []
        [("sample1", [("depth", PyVal.num 10)]), ("sample2", [("depth", PyVal.num 20)])]
        [("depth", {})] none).2 (some "modA") "depth" = some (PyFloat.finite 20) ∧
    dminAt (general_stats_addcols (some "modA") "abcd" []
        [("sample1", [("depth", PyVal.num 10)]), ("sample2", [("depth", PyVal.num 20)])]
        [("depth", {})] none).2 (some "modA") "depth" = some (PyFloat.finite 10) := by
  have h := general_stats_addcols_bounds (some "modA") "abcd" []
    [("sample1", [("depth", PyVal.num 10)]), ("sample2", [("depth", PyVal.num 20)])]
    [("depth", {})] none "depth" {} (by simp) (List.mem_cons_self _ _) (by decide)
  have h1 := h.1 rfl
  have h2 := h.2.1 rfl
  have e1 : trueMax "depth" (none : Option (ℚ → PyVal))
      [("sample1", [("depth", PyVal.num 10)]), ("sample2", [("depth", PyVal.num 20)])]
      = PyFloat.finite 20 := by decide
  have e2 : trueMin "depth" (none : Option (ℚ → PyVal))
      [("sample1", [("depth", PyVal.num 10)]), ("sample2", [("depth", PyVal.num 20)])]
      = PyFloat.finite 10 := by decide
  rw [e1] at h1
  rw [e2] at h2
  exact ⟨h1, h2⟩

/-- A successful run of the stats loop (over at least one key) stores an
entry that does not depend on the starting table. -/
theorem gsLoop_table_indep (selfName : Option String) (rand : String)
    (headers : List (String × HeaderCfg)) (data : GSData) (ns : Option String)
    (ks : List String) (t : GSTable)
    (hk : ks ≠ [])
    (hok : (gsLoop selfName rand headers data ns ks [] t).1 = none) :
    lookupA (gsLoop selfName rand headers data ns ks [] t).2 ns
    = lookupA (gsLoop selfName rand headers data ns ks [] ([] : GSTable)).2 ns := by
  have hok2 : (gsLoop selfName rand headers data ns ks [] ([] : GSTable)).1 = none := by
    rw [gsLoop_err_indep selfName rand headers data ns ks [] ([] : GSTable) t]
    exact hok
  obtain ⟨fs, hfs, -, hc1⟩ := gsLoop_ok selfName rand headers data ns ks [] t hok
  obtain ⟨fs2, hfs2, -, hc2⟩ := gsLoop_ok selfName rand headers data ns ks [] [] hok2
  have hfseq : fs = fs2 := by
    rw [hfs] at hfs2
    exact Except.ok.inj hfs2
  subst hfseq
  rw [hc1 hk, hc2 hk, lookupA_setA, lookupA_setA]

/-- C6 (amended): when the second of two successive `general_stats_addcols`
calls under the same namespace iterates at least one key (non-empty
headers or non-empty data) and completes without raising, it replaces
the namespace's entire previous entry: the final entry under that
namespace equals the entry the same call would store into an empty
table, so it is fully determined by the second call's arguments, with no
key-by-key merging of the previous state.  (As stated the claim is
false: a keyless second call writes nothing and leaves the first call's
entry; see the counterexample.) -/
theorem addcols_replaces_wholesale (selfName : Option String) (rand : String)
    (t : GSTable) (data : GSData) (headers : List (String × HeaderCfg))
    (nsArg : Option String)
    (hkne : headers ≠ [] ∨ data ≠ [])
    (hok : (general_stats_addcols selfName rand t data headers nsArg).1 = none) :
    lookupA (general_stats_addcols selfName rand t data headers nsArg).2
      (gsNs nsArg selfName)
    = lookupA (general_stats_addcols selfName rand [] data headers nsArg).2
      (gsNs nsArg selfName) := by
  have hk : (if headers.length > 0 then headers.map Prod.fst else data.map Prod.fst) ≠ [] := by
    by_cases hh : headers.length > 0
    · rw [if_pos hh]
      intro hmape
      rw [List.map_eq_nil_iff] at hmape
      rw [hmape] at hh
      exact absurd hh (by simp)
    · rw [if_neg hh]
      have hhe : headers = [] := by
        cases headers with
        | nil => rfl
        | cons a l => exact absurd (by simp) hh
      rcases hkne with hcl | hcd
      · exact absurd hhe hcl
      · intro hmape
        rw [List.map_eq_nil_iff] at hmape
        exact hcd hmape
  have hloop : ∀ t0 : GSTable, general_stats_addcols selfName rand t0 data headers nsArg
      = gsLoop selfName rand headers data (gsNs nsArg selfName)
          (if headers.length > 0 then headers.map Prod.fst else data.map Prod.fst) [] t0 :=
    fun t0 => rfl
  rw [hloop t, hloop []] at *
  exact gsLoop_table_indep selfName rand headers data (gsNs nsArg selfName) _ t hk
    (by rw [← hloop t]; exact hok)

/-- Witness for the amended C6 theorem: a second call over a prior table
with an unrelated entry stores the same entry it would store into an
empty table. -/
theorem addcols_replaces_wholesale_witness :
    lookupA (general_stats_addcols (some "modB") "wxyz"
        [(some "other", ⟨[("s0", [])], []⟩)]
        [("sA", [("cov", PyVal.num 3)])] [("cov", {})] none).2 (gsNs none (some "modB"))
    = lookupA (general_stats_addcols (some "modB") "wxyz" []
        [("sA", [("cov", PyVal.num 3)])] [("cov", {})] none).2 (gsNs none (some "modB")) := by
  exact addcols_replaces_wholesale (some "modB") "wxyz"
    [(some "other", ⟨[("s0", [])], []⟩)]
    [("sA", [("cov", PyVal.num 3)])] [("cov", {})] none
    (Or.inl (List.cons_ne_nil _ _)) (by decide)

/-- C5: the bar-graph render selector delegates on the first kept
dataset's sample count: the interactive (HighCharts) path is chosen
exactly when that count is at most 50, and the static (matplotlib) path
exactly when it exceeds 50. -/
theorem plot_bargraph_threshold {S C : Type} [LinearOrder S] [DecidableEq C]
    (data : List (List (S × List (C × Int)))) (cats : List (CatsArg C))
    (pd : List (List (BarSeries C))) (s : List S) (ps : List (List S)) :
    (plot_bargraph data cats = .interactive pd (s :: ps) → s.length ≤ 50) ∧
    (plot_bargraph data cats = .static pd (s :: ps) → s.length > 50) := by
  unfold plot_bargraph
  cases hk : (barPieces data cats).filter (fun p => 0 < p.2.length) with
  | nil =>
    exact ⟨fun h => BarResult.noConfusion h, fun h => BarResult.noConfusion h⟩
  | cons p rest =>
    dsimp only
    by_cases hgt : p.1.length > 50
    · rw [if_pos hgt]
      refine ⟨fun h => BarResult.noConfusion h, fun h => ?_⟩
      injection h with h1 h2
      rw [List.map_cons] at h2
      injection h2 with h3 h4
      rw [← h3]
      exact hgt
    · rw [if_neg hgt]
      refine ⟨fun h => ?_, fun h => BarResult.noConfusion h⟩
      injection h with h1 h2
      rw [List.map_cons] at h2
      injection h2 with h3 h4
      rw [← h3]
      exact Nat.le_of_not_lt hgt

set_option maxRecDepth 100000 in
/-- Witness for C5 at the boundary: 50 samples select the interactive
path, 51 samples the static path. -/
theorem plot_bargraph_threshold_witness :
    (List.range 50).length ≤ 50 ∧ (List.range 51).length > 50 := by
  constructor
  · exact (plot_bargraph_threshold
      [(List.range 50).map (fun i => (i, [(0, (1 : Int))]))]
      [CatsArg.listArg [0]]
      [[⟨0, List.replicate 50 (1 : Int), none⟩]] (List.range 50) []).1 (by decide)
  · exact (plot_bargraph_threshold
      [(List.range 51).map (fun i => (i, [(0, (1 : Int))]))]
      [CatsArg.listArg [0]]
      [[⟨0, List.replicate 51 (1 : Int), none⟩]] (List.range 51) []).2 (by decide)

end Multiqc
